import Mathlib

/-!
Verification of the skpdiff image-comparison core (`SkDiffContext.cpp`)
through a shallow embedding of its data model and operations.

The embedding follows the source file `src/tools/skpdiff/SkDiffContext.cpp`:
pure helpers become Lean functions, the mutable per-call loop state of
`SkDiffContext::addDiff` becomes explicit state passing, and the external
collaborators (image decoder, glob expansion, path utilities, stream text
rendering) become function parameters or spec-modelled definitions.
-/

/-! ## Common-name computation (`get_common_prefix`, lines 64-79) -/

/-- The first index `x < min |a| |b|` with `a[x] ≠ b[x]`, if any: the index at
which the loop in `get_common_prefix` returns early. -/
def mismatchIdx : List Char → List Char → Option Nat
  | x :: xs, y :: ys =>
    if x ≠ y then some 0 else (mismatchIdx xs ys).map (· + 1)
  | _, _ => none

/-- List-level body of `get_common_prefix`: scan for the first mismatching
index and return the characters before it; if no mismatch exists up to the
shorter length, return the shorter string (`a` on ties). -/
def get_common_prefix_list (a b : List Char) : List Char :=
  match mismatchIdx a b with
  | some x => a.take x
  | none => if a.length > b.length then b else a

/-- `get_common_prefix` from `SkDiffContext.cpp` lines 64-79, on `SkString`
modelled as `String`. -/
def get_common_prefix (a b : String) : String :=
  ⟨ get_common_prefix_list a.toList b.toList⟩

/-- The longest common character-prefix of two character lists (the notion the
specification uses to describe `commonName`). -/
def lcpChars : List Char → List Char → List Char
  | x :: xs, y :: ys => if x = y then x :: lcpChars xs ys else []
  | _, _ => []

theorem get_common_prefix_list_eq_lcp (a b : List Char) :
    get_common_prefix_list a b = lcpChars a b := by
  induction a generalizing b with
  | nil =>
    cases b <;> simp [ get_common_prefix_list, mismatchIdx, lcpChars]
  | cons x xs ih =>
    cases b with
    | nil => simp [ get_common_prefix_list, mismatchIdx, lcpChars]
    | cons y ys =>
      by_cases hxy : x = y
      · subst hxy
        have ihs := ih ys
        cases hm : mismatchIdx xs ys with
        | some k =>
          simp only [ get_common_prefix_list, hm] at ihs
          simp [ get_common_prefix_list, mismatchIdx, hm, lcpChars, ihs]
        | none =>
          simp only [ get_common_prefix_list, hm] at ihs
          by_cases hlen : xs.length > ys.length
          · rw [if_pos hlen] at ihs
            simp [ get_common_prefix_list, mismatchIdx, hm, lcpChars, ← ihs,
              hlen]
          · rw [if_neg hlen] at ihs
            simp [ get_common_prefix_list, mismatchIdx, hm, lcpChars, ← ihs,
              hlen]
      · simp [ get_common_prefix_list, mismatchIdx, hxy, lcpChars]

theorem lcpChars_nil_iff (x y : Char) (xs ys : List Char) :
    lcpChars (x :: xs) (y :: ys) = [] ↔ x ≠ y := by
  by_cases h : x = y <;> simp [lcpChars, h]

/-- C1 counterexample: the spec's equation `commonName("a.png", "ab.png") =
"a.png"` is false of the code; the characters differ already at index 1
('.' vs 'b'), so `get_common_prefix` yields `"a"`. -/
theorem c1_counterexample :
    get_common_prefix "a.png" "ab.png" = "a" ∧
      get_common_prefix "a.png" "ab.png" ≠ "a.png" := by
  constructor <;> decide

/-- C1 (amended): the spec's concrete equations on `get_common_prefix`, with
the middle one corrected to `"a"`: the first mismatch of `"a.png"` and
`"ab.png"` is at index 1, so the result is the first 1 character. -/
theorem c1_common_prefix_equations :
    get_common_prefix "image_v1.png" "image_v2.png" = "image_v" ∧
      get_common_prefix "a.png" "ab.png" = "a" ∧
      get_common_prefix "cat.png" "category.png" = "cat" := by
  refine ⟨?_, ?_, ?_⟩ <;> decide

/-- C2 counterexample: with the non-empty base filenames `"a"` and `"b"`
(which share no common prefix) the derived common name is the empty string,
not the shorter input: the claimed non-emptiness and shorter-string fallback
are false of the code. -/
theorem c2_counterexample :
    ("a" : String) ≠ "" ∧ ("b" : String) ≠ "" ∧
      get_common_prefix "a" "b" = "" ∧
      get_common_prefix "a" "b" ≠ "a" ∧ get_common_prefix "a" "b" ≠ "b" := by
  refine ⟨?_, ?_, ?_, ?_, ?_⟩ <;> decide

/-- C2 (amended): for non-empty base filenames, `get_common_prefix` returns
exactly the longest common character-prefix (which is the shorter filename
whenever one is a prefix of the other), and the result is non-empty iff the
two filenames start with the same character. -/
theorem c2_common_prefix_lcp (a b : String) (ha : a ≠ "") (hb : b ≠ "") :
    get_common_prefix a b = ⟨lcpChars a.toList b.toList⟩ ∧
      ( get_common_prefix a b ≠ "" ↔ a.toList.head? = b.toList.head?) := by
  refine ⟨by rw [ get_common_prefix, get_common_prefix_list_eq_lcp], ?_⟩
  have ha' : a.toList ≠ [] := by
    intro h
    apply ha
    cases a with
    | mk data =>
      simp only [String.toList] at h
      subst h
      decide
  have hb' : b.toList ≠ [] := by
    intro h
    apply hb
    cases b with
    | mk data =>
      simp only [String.toList] at h
      subst h
      decide
  rw [ get_common_prefix, get_common_prefix_list_eq_lcp]
  cases hx : a.toList with
  | nil => exact absurd hx ha'
  | cons x xs =>
    cases hy : b.toList with
    | nil => exact absurd hy hb'
    | cons y ys =>
      constructor
      · intro hne
        simp only [List.head?]
        by_cases hxy : x = y
        · rw [hxy]
        · exfalso
          apply hne
          have hl : lcpChars (x :: xs) (y :: ys) = [] := by simp [lcpChars, hxy]
          rw [hl]
      · intro hheads hemp
        have hxy : x = y := by simpa [List.head?] using hheads
        have hl : lcpChars (x :: xs) (y :: ys) = [] := by
          simpa using congrArg String.toList hemp
        exact (lcpChars_nil_iff x y xs ys).mp hl hxy

/-- Witness for `c2_common_prefix_lcp` at `a = "cat.png"`, `b = "category.png"`. -/
theorem c2_common_prefix_lcp_witness :
    get_common_prefix "cat.png" "category.png" =
        ⟨lcpChars "cat.png".toList "category.png".toList⟩ ∧
      ( get_common_prefix "cat.png" "category.png" ≠ "" ↔
        "cat.png".toList.head? = "category.png".toList.head?) :=
  c2_common_prefix_lcp "cat.png" "category.png" (by decide) (by decide)

/-! ## Data model (`DiffRecord`, `DiffData`, the context) -/

/-- Per-(pair, differ) result, `SkDiffContext::DiffData`.  The similarity
score (a C++ `double` produced by the differ) is modelled as a rational. -/
structure DiffData where
  fDiffName : String
  fResult : ℚ
  fPointsOfInterest : List (Int × Int)
deriving DecidableEq, Repr

/-- Per-pair result record, `SkDiffContext::DiffRecord`.  The intrusive
`fNext` link is represented by the position of the record in the store's
list (head of the list = `fRecords`). -/
structure DiffRecord where
  fBaselinePath : String
  fTestPath : String
  fCommonName : String
  fDifferencePath : String
  fDiffs : List DiffData
deriving DecidableEq, Repr

/-- One registered differ, abstracted to its observable responses for the
one pair a single `addDiff` call compares (the differ capability contract:
`getName`, `enablePOIAlphaMask`, `queueDiff`, `getResult`,
`getPointsOfInterest`). -/
structure Differ where
  name : String
  enableResp : Bool
  queueResp : Int
  result : ℚ
  pois : List (Int × Int)
deriving DecidableEq, Repr

/-- The mutable fields of `SkDiffContext` that the claims concern. -/
structure SkDiffContextSt where
  fRecords : List DiffRecord
  fDiffers : List Differ
  fDifferenceDir : String
deriving DecidableEq, Repr

/-- Modelled from the spec: the distinguished `SkImageDiffer::RESULT_CORRECT`
sentinel denoting a pixel-identical result ("1.0 = identical";
`SkImageDiffer.h` is not under `src/`). -/
def RESULT_CORRECT : ℚ := 1

/-- Modelled from the spec: `SkOSPath::SkBasename` (declared outside `src/`)
returns the final path segment of a path — the base filename. -/
def basename (path : String) : String :=
  ⟨(path.toList.reverse.takeWhile (fun c => c ≠ '/')).reverse⟩

/-- Modelled from the spec: `SkOSPath::SkPathJoin` (declared outside `src/`)
joins a directory and a filename with a path separator. -/
def pathJoin (dir name : String) : String :=
  dir ++ "/" ++ name

/-! ## Single-pair comparison (`SkDiffContext::addDiff`, lines 81-155)

The loop over the registered differs mutates a record and two booleans
(`alphaMaskPending`, `alphaMaskCreated`); the embedding passes that state
explicitly.  To make the claims about which collaborator calls happen
observable, the state also carries three traces: the indices of differs
asked `enablePOIAlphaMask`, the indices of differs whose `queueDiff` was
invoked, and the artifact paths passed to `SkImageEncoder::EncodeFile`. -/

structure LoopState where
  record : DiffRecord
  alphaMaskPending : Bool
  alphaMaskCreated : Bool
  asked : List Nat
  queued : List Nat
  encoded : List String
deriving Repr

/-- One iteration of the differ loop of `addDiff` (lines 110-151) for the
differ at registry index `idx`. -/
def diffStep (fDifferenceDir : String) (idx : Nat) (differ : Differ)
    (s : LoopState) : LoopState :=
  let doAsk : Bool := !s.alphaMaskCreated && !(fDifferenceDir == "")
  let pending : Bool := if doAsk then differ.enableResp else s.alphaMaskPending
  let asked : List Nat := if doAsk then s.asked ++ [idx] else s.asked
  let queued : List Nat := s.queued ++ [idx]
  if 0 ≤ differ.queueResp then
    let d : DiffData := ⟨differ.name, differ.result, differ.pois⟩
    let rec1 : DiffRecord := { s.record with fDiffs := s.record.fDiffs ++ [d] }
    if pending = true ∧ differ.result ≠ RESULT_CORRECT ∧
        rec1.fDifferencePath = "" then
      let path := pathJoin fDifferenceDir rec1.fCommonName
      { record := { rec1 with fDifferencePath := path },
        alphaMaskPending := false,
        alphaMaskCreated := true,
        asked := asked, queued := queued,
        encoded := s.encoded ++ [path] }
    else
      { record := rec1,
        alphaMaskPending := false,
        alphaMaskCreated := pending || s.alphaMaskCreated,
        asked := asked, queued := queued,
        encoded := s.encoded }
  else
    { record := s.record,
      alphaMaskPending := pending,
      alphaMaskCreated := s.alphaMaskCreated,
      asked := asked, queued := queued,
      encoded := s.encoded }

/-- The differ loop of `addDiff`, starting at registry index `idx`. -/
def runDiffers (fDifferenceDir : String) : Nat → List Differ → LoopState → LoopState
  | _, [], s => s
  | idx, d :: ds, s =>
    runDiffers fDifferenceDir (idx + 1) ds (diffStep fDifferenceDir idx d s)

/-- Result of one `addDiff` call: the updated context plus the traces of
collaborator calls made during the call. -/
structure AddDiffOut where
  ctx : SkDiffContextSt
  asked : List Nat
  queued : List Nat
  encoded : List String
deriving Repr

/-- `SkDiffContext::addDiff` (lines 81-155).  `DecodeFile` models
`SkImageDecoder::DecodeFile` succeeding (`true`) or failing (`false`) on a
path; on failure for either path the function logs and returns with the
context unchanged and no collaborator called. -/
def addDiff (DecodeFile : String → Bool) (ctx : SkDiffContextSt)
    (baselinePath testPath : String) : AddDiffOut :=
  if DecodeFile baselinePath = false then ⟨ctx, [], [], []⟩
  else if DecodeFile testPath = false then ⟨ctx, [], [], []⟩
  else
    let rec0 : DiffRecord :=
      { fBaselinePath := baselinePath, fTestPath := testPath,
        fCommonName := get_common_prefix (basename baselinePath)
          (basename testPath),
        fDifferencePath := "", fDiffs := [] }
    let s := runDiffers ctx.fDifferenceDir 0 ctx.fDiffers
      ⟨rec0, false, false, [], [], []⟩
    ⟨{ ctx with fRecords := s.record :: ctx.fRecords },
      s.asked, s.queued, s.encoded⟩

/-- C4: if decoding the baseline image or the test image fails, `addDiff`
returns without creating a record: the record store (indeed the whole
context) is unchanged, and no differ is invoked (`queueDiff` is never
called, nor any other differ entry point). -/
theorem c4_load_failure_no_record (DecodeFile : String → Bool)
    (ctx : SkDiffContextSt) (baselinePath testPath : String)
    (h : DecodeFile baselinePath = false ∨
      DecodeFile testPath = false) :
    (addDiff DecodeFile ctx baselinePath testPath).ctx = ctx ∧
      (addDiff DecodeFile ctx baselinePath testPath).queued = [] ∧
      (addDiff DecodeFile ctx baselinePath testPath).asked = [] ∧
      (addDiff DecodeFile ctx baselinePath testPath).encoded = [] := by
  rcases h with h | h
  · simp [addDiff, h]
  · by_cases hb : DecodeFile baselinePath = false
    · simp [addDiff, hb]
    · simp [addDiff, hb, h]

/-- Witness for `c4_load_failure_no_record`: a decoder failing on every path,
a context with one registered differ. -/
theorem c4_load_failure_no_record_witness :
    (addDiff (fun _ => false) ⟨[], [⟨"d", true, 0, 0, []⟩], ""⟩ "a.png" "b.png").ctx
        = ⟨[], [⟨"d", true, 0, 0, []⟩], ""⟩ ∧
      (addDiff (fun _ => false) ⟨[], [⟨"d", true, 0, 0, []⟩], ""⟩ "a.png" "b.png").queued = [] ∧
      (addDiff (fun _ => false) ⟨[], [⟨"d", true, 0, 0, []⟩], ""⟩ "a.png" "b.png").asked = [] ∧
      (addDiff (fun _ => false) ⟨[], [⟨"d", true, 0, 0, []⟩], ""⟩ "a.png" "b.png").encoded = [] :=
  c4_load_failure_no_record (fun _ => false) ⟨[], [⟨"d", true, 0, 0, []⟩], ""⟩
    "a.png" "b.png" (Or.inl rfl)

/-! ## C5: shape of the diffs sequence produced by `addDiff` -/

/-- The `DiffData` that `addDiff` pushes for a differ whose `queueDiff`
succeeded (lines 119-127). -/
def mkDiffData (d : Differ) : DiffData :=
  ⟨d.name, d.result, d.pois⟩

/-- Whether a differ's `queueDiff` returned a non-negative handle. -/
def accepts (d : Differ) : Bool :=
  decide (0 ≤ d.queueResp)

theorem loopState_ite_record_fDiffs (c : Prop) [Decidable c]
    (a b : LoopState) :
    (if c then a else b).record.fDiffs =
      if c then a.record.fDiffs else b.record.fDiffs := by
  split <;> rfl

theorem diffStep_record_fDiffs (dir : String) (idx : Nat) (d : Differ)
    (s : LoopState) :
    (diffStep dir idx d s).record.fDiffs =
      s.record.fDiffs ++ if accepts d then [mkDiffData d] else [] := by
  by_cases hq : 0 ≤ d.queueResp
  · have ha : accepts d = true := by simp [accepts, hq]
    simp [diffStep, hq, ha, mkDiffData, loopState_ite_record_fDiffs]
  · have ha : accepts d = false := by simp [accepts, hq]
    simp [diffStep, hq, ha]

theorem runDiffers_record_fDiffs (dir : String) (ds : List Differ)
    (idx : Nat) (s : LoopState) :
    (runDiffers dir idx ds s).record.fDiffs =
      s.record.fDiffs ++ (ds.filter accepts).map mkDiffData := by
  induction ds generalizing idx s with
  | nil => simp [runDiffers]
  | cons d ds ih =>
    rw [runDiffers, ih, diffStep_record_fDiffs]
    by_cases hd : accepts d <;> simp [List.filter_cons, hd]

/-- C5: for a valid pair (both images decode), `addDiff` adds exactly one
record at the head of the store, leaving the rest unchanged; the new
record's `diffs` is exactly the registry-ordered sequence of results of the
differs whose `queueDiff` returned a non-negative handle (a negative handle
contributes nothing), so its length is at most the number of registered
differs. -/
theorem c5_addDiff_record_shape (DecodeFile : String → Bool)
    (ctx : SkDiffContextSt) (baselinePath testPath : String)
    (hb : DecodeFile baselinePath = true) (ht : DecodeFile testPath = true) :
    (addDiff DecodeFile ctx baselinePath testPath).ctx.fRecords.length =
        ctx.fRecords.length + 1 ∧
      (addDiff DecodeFile ctx baselinePath testPath).ctx.fRecords.tail =
        ctx.fRecords ∧
      ((addDiff DecodeFile ctx baselinePath testPath).ctx.fRecords.head?).map
          DiffRecord.fDiffs =
        some ((ctx.fDiffers.filter accepts).map mkDiffData) ∧
      ((ctx.fDiffers.filter accepts).map mkDiffData).length ≤
        ctx.fDiffers.length := by
  refine ⟨?_, ?_, ?_, ?_⟩
  · simp [addDiff, hb, ht]
  · simp [addDiff, hb, ht]
  · simp only [addDiff, hb, ht, Bool.true_eq_false, if_false]
    simp [runDiffers_record_fDiffs]
  · simpa using List.length_filter_le accepts ctx.fDiffers

/-- A concrete two-differ registry: the first accepts the pair, the second
declines (negative handle). -/
def exDiffers : List Differ :=
  [⟨"good", false, 0, 2, [(1, 2)]⟩, ⟨"bad", false, -1, 0, []⟩]

/-- A concrete context with an empty store, `exDiffers`, and no artifact
directory. -/
def exCtx : SkDiffContextSt :=
  ⟨[], exDiffers, ""⟩

/-- Witness for `c5_addDiff_record_shape`: an always-succeeding decoder over
`exCtx`. -/
theorem c5_addDiff_record_shape_witness :
    (addDiff (fun _ => true) exCtx "a/x.png" "b/y.png").ctx.fRecords.length =
        exCtx.fRecords.length + 1 ∧
      (addDiff (fun _ => true) exCtx "a/x.png" "b/y.png").ctx.fRecords.tail =
        exCtx.fRecords ∧
      ((addDiff (fun _ => true) exCtx "a/x.png" "b/y.png").ctx.fRecords.head?).map
          DiffRecord.fDiffs =
        some ((exCtx.fDiffers.filter accepts).map mkDiffData) ∧
      ((exCtx.fDiffers.filter accepts).map mkDiffData).length ≤
        exCtx.fDiffers.length :=
  c5_addDiff_record_shape (fun _ => true) exCtx "a/x.png" "b/y.png" rfl rfl

/-! ## C9: `enablePOIAlphaMask` is asked at most until one differ claims it -/

theorem loopState_ite_asked (c : Prop) [Decidable c] (a b : LoopState) :
    (if c then a else b).asked = if c then a.asked else b.asked := by
  split <;> rfl

theorem loopState_ite_encoded (c : Prop) [Decidable c] (a b : LoopState) :
    (if c then a else b).encoded = if c then a.encoded else b.encoded := by
  split <;> rfl

theorem loopState_ite_created (c : Prop) [Decidable c] (a b : LoopState) :
    (if c then a else b).alphaMaskCreated =
      if c then a.alphaMaskCreated else b.alphaMaskCreated := by
  split <;> rfl

theorem loopState_ite_pending (c : Prop) [Decidable c] (a b : LoopState) :
    (if c then a else b).alphaMaskPending =
      if c then a.alphaMaskPending else b.alphaMaskPending := by
  split <;> rfl

theorem loopState_ite_record_path (c : Prop) [Decidable c] (a b : LoopState) :
    (if c then a else b).record.fDifferencePath =
      if c then a.record.fDifferencePath else b.record.fDifferencePath := by
  split <;> rfl

theorem runDiffers_append (dir : String) (as bs : List Differ) (idx : Nat)
    (s : LoopState) :
    runDiffers dir idx (as ++ bs) s =
      runDiffers dir (idx + as.length) bs (runDiffers dir idx as s) := by
  induction as generalizing idx s with
  | nil => simp [runDiffers]
  | cons a as ih =>
    simp only [List.cons_append, runDiffers, List.length_cons, List.append_eq]
    rw [ih]
    have harith : idx + 1 + as.length = idx + (as.length + 1) := by omega
    rw [harith]

theorem diffStep_asked (dir : String) (idx : Nat) (d : Differ) (s : LoopState) :
    (diffStep dir idx d s).asked =
      if (!s.alphaMaskCreated && !(dir == "")) = true then s.asked ++ [idx]
      else s.asked := by
  by_cases hda : (!s.alphaMaskCreated && !(dir == "")) = true <;>
    simp [diffStep, hda, loopState_ite_asked]

theorem diffStep_asked_mem (dir : String) (idx : Nat) (d : Differ)
    (s : LoopState) (j : Nat) (h : j ∈ (diffStep dir idx d s).asked) :
    j ∈ s.asked ∨ j = idx := by
  rw [diffStep_asked] at h
  by_cases hda : (!s.alphaMaskCreated && !(dir == "")) = true
  · rw [if_pos hda] at h
    simpa using h
  · rw [if_neg hda] at h
    exact Or.inl h

theorem runDiffers_asked_mem (dir : String) (ds : List Differ) (idx : Nat)
    (s : LoopState) (j : Nat) (h : j ∈ (runDiffers dir idx ds s).asked) :
    j ∈ s.asked ∨ (idx ≤ j ∧ j < idx + ds.length) := by
  induction ds generalizing idx s with
  | nil =>
    simp only [runDiffers] at h
    exact Or.inl h
  | cons d ds ih =>
    rw [runDiffers] at h
    rcases ih (idx + 1) _ h with h' | h'
    · rcases diffStep_asked_mem dir idx d s j h' with h'' | h''
      · exact Or.inl h''
      · right
        subst h''
        simp only [List.length_cons]
        omega
    · right
      obtain ⟨ha, hb⟩ := h'
      simp only [List.length_cons]
      omega

theorem diffStep_created_of_created (dir : String) (idx : Nat) (d : Differ)
    (s : LoopState) (h : s.alphaMaskCreated = true) :
    (diffStep dir idx d s).alphaMaskCreated = true := by
  simp [diffStep, h, loopState_ite_created]

theorem diffStep_frozen (dir : String) (idx : Nat) (d : Differ) (s : LoopState)
    (hc : s.alphaMaskCreated = true) (hp : s.alphaMaskPending = false) :
    (diffStep dir idx d s).asked = s.asked ∧
      (diffStep dir idx d s).encoded = s.encoded ∧
      (diffStep dir idx d s).record.fDifferencePath =
        s.record.fDifferencePath ∧
      (diffStep dir idx d s).alphaMaskCreated = true ∧
      (diffStep dir idx d s).alphaMaskPending = false := by
  simp [diffStep, hc, hp, loopState_ite_asked, loopState_ite_encoded,
    loopState_ite_created, loopState_ite_pending, loopState_ite_record_path]

theorem runDiffers_frozen (dir : String) (ds : List Differ) (idx : Nat)
    (s : LoopState) (hc : s.alphaMaskCreated = true)
    (hp : s.alphaMaskPending = false) :
    (runDiffers dir idx ds s).asked = s.asked ∧
      (runDiffers dir idx ds s).encoded = s.encoded ∧
      (runDiffers dir idx ds s).record.fDifferencePath =
        s.record.fDifferencePath := by
  induction ds generalizing idx s with
  | nil => exact ⟨rfl, rfl, rfl⟩
  | cons d ds ih =>
    obtain ⟨h1, h2, h3, h4, h5⟩ := diffStep_frozen dir idx d s hc hp
    rw [runDiffers]
    obtain ⟨g1, g2, g3⟩ := ih (idx + 1) _ h4 h5
    exact ⟨g1.trans h1, g2.trans h2, g3.trans h3⟩

theorem diffStep_cases (dir : String) (idx : Nat) (d : Differ)
    (s : LoopState) :
    ((diffStep dir idx d s).encoded = s.encoded ∧
        (diffStep dir idx d s).record.fDifferencePath =
          s.record.fDifferencePath) ∨
      (diffStep dir idx d s).alphaMaskCreated = true := by
  by_cases hq : 0 ≤ d.queueResp
  · by_cases hart :
      ((if (!s.alphaMaskCreated && !(dir == "")) = true then d.enableResp
          else s.alphaMaskPending) = true ∧
        d.result ≠ RESULT_CORRECT ∧ s.record.fDifferencePath = "")
    · right
      simp at hart
      simp [diffStep, hq, loopState_ite_created]
      exact Or.inl hart
    · left
      simp at hart
      constructor
      · simp [diffStep, hq, loopState_ite_encoded, loopState_ite_record_path]
        exact hart
      · simp [diffStep, hq, loopState_ite_encoded, loopState_ite_record_path]
        intro h1 h2 h3
        exact absurd h3 (hart h1 h2)
  · left
    constructor <;>
      simp [diffStep, hq, loopState_ite_encoded, loopState_ite_record_path]

theorem diffStep_not_created (dir : String) (idx : Nat) (d : Differ)
    (s : LoopState) (h : (diffStep dir idx d s).alphaMaskCreated = false) :
    (diffStep dir idx d s).encoded = s.encoded ∧
      (diffStep dir idx d s).record.fDifferencePath =
        s.record.fDifferencePath ∧
      s.alphaMaskCreated = false := by
  have hsc : s.alphaMaskCreated = false := by
    cases hcs : s.alphaMaskCreated
    · rfl
    · rw [diffStep_created_of_created dir idx d s hcs] at h
      cases h
  rcases diffStep_cases dir idx d s with hc | hc
  · exact ⟨hc.1, hc.2, hsc⟩
  · rw [hc] at h
    cases h

theorem runDiffers_not_created (dir : String) (ds : List Differ) (idx : Nat)
    (s : LoopState)
    (h : (runDiffers dir idx ds s).alphaMaskCreated = false) :
    (runDiffers dir idx ds s).encoded = s.encoded ∧
      (runDiffers dir idx ds s).record.fDifferencePath =
        s.record.fDifferencePath ∧
      s.alphaMaskCreated = false := by
  induction ds generalizing idx s with
  | nil => exact ⟨rfl, rfl, h⟩
  | cons d ds ih =>
    rw [runDiffers] at h ⊢
    obtain ⟨g1, g2, g3⟩ := ih (idx + 1) _ h
    obtain ⟨e1, e2, e3⟩ := diffStep_not_created dir idx d s g3
    exact ⟨g1.trans e1, g2.trans e2, e3⟩

theorem runDiffers_ask_once (dir : String) (l₁ l₂ : List Differ) (d : Differ)
    (i : Nat) (hleni : l₁.length = i) (rec0 : DiffRecord)
    (hpath0 : rec0.fDifferencePath = "")
    (henable : d.enableResp = true) (hqueue : 0 ≤ d.queueResp)
    (hasked : i ∈ (runDiffers dir 0 (l₁ ++ d :: l₂)
      ⟨rec0, false, false, [], [], []⟩).asked) :
    (∀ j, i < j → j ∉ (runDiffers dir 0 (l₁ ++ d :: l₂)
        ⟨rec0, false, false, [], [], []⟩).asked) ∧
      (d.result = RESULT_CORRECT →
        (runDiffers dir 0 (l₁ ++ d :: l₂)
            ⟨rec0, false, false, [], [], []⟩).encoded = [] ∧
          (runDiffers dir 0 (l₁ ++ d :: l₂)
            ⟨rec0, false, false, [], [], []⟩).record.fDifferencePath = "") := by
  subst hleni
  have hsplit : runDiffers dir 0 (l₁ ++ d :: l₂)
      (⟨rec0, false, false, [], [], []⟩ : LoopState) =
      runDiffers dir (l₁.length + 1) l₂
        (diffStep dir l₁.length d
          (runDiffers dir 0 l₁ ⟨rec0, false, false, [], [], []⟩)) := by
    rw [runDiffers_append, runDiffers]
    simp only [Nat.zero_add]
  set s1 := runDiffers dir 0 l₁
    (⟨rec0, false, false, [], [], []⟩ : LoopState) with hs1
  have hs1mem : ∀ j, j ∈ s1.asked → j < l₁.length := by
    intro j hj
    rw [hs1] at hj
    rcases runDiffers_asked_mem dir l₁ 0 _ j hj with h | h
    · simp at h
    · omega
  by_cases hda : (!s1.alphaMaskCreated && !(dir == "")) = true
  · have hstep_asked : (diffStep dir l₁.length d s1).asked =
        s1.asked ++ [l₁.length] := by
      rw [diffStep_asked, if_pos hda]
    have hcp : (diffStep dir l₁.length d s1).alphaMaskCreated = true ∧
        (diffStep dir l₁.length d s1).alphaMaskPending = false := by
      constructor <;>
        simp [diffStep, hda, henable, hqueue, loopState_ite_created,
          loopState_ite_pending]
    have hfrozen := runDiffers_frozen dir l₂ (l₁.length + 1) _ hcp.1 hcp.2
    refine ⟨?_, ?_⟩
    · intro j hij hmem
      rw [hsplit, hfrozen.1, hstep_asked] at hmem
      rcases List.mem_append.mp hmem with h | h
      · exact absurd (hs1mem j h) (by omega)
      · simp at h
        omega
    · intro hres
      have hs1nc : s1.alphaMaskCreated = false := by
        have h := (Bool.and_eq_true _ _).mp hda
        simpa using h.1
      rw [hs1] at hs1nc
      obtain ⟨henc1, hpath1, _⟩ :=
        runDiffers_not_created dir l₁ 0 ⟨rec0, false, false, [], [], []⟩ hs1nc
      rw [← hs1] at henc1 hpath1
      have hstepq : (diffStep dir l₁.length d s1).encoded = s1.encoded ∧
          (diffStep dir l₁.length d s1).record.fDifferencePath =
            s1.record.fDifferencePath := by
        constructor <;>
          simp [diffStep, hqueue, hres, loopState_ite_encoded,
            loopState_ite_record_path]
      constructor
      · rw [hsplit, hfrozen.2.1, hstepq.1, henc1]
      · rw [hsplit, hfrozen.2.2, hstepq.2, hpath1]
        exact hpath0
  · exfalso
    have hstep_asked : (diffStep dir l₁.length d s1).asked = s1.asked := by
      rw [diffStep_asked, if_neg hda]
    rw [hsplit] at hasked
    rcases runDiffers_asked_mem dir l₂ (l₁.length + 1) _ _ hasked with h | h
    · rw [hstep_asked] at h
      exact absurd (hs1mem _ h) (by omega)
    · omega

/-- C9: within a single `addDiff` call, once the differ at registry index `i`
has been asked `enablePOIAlphaMask` (it is in the asked trace), answered
`true`, and obtained a non-negative `queueDiff` handle, no differ at a later
registry index is ever asked `enablePOIAlphaMask`; and when that differ's
result equals `RESULT_CORRECT`, additionally no artifact file is encoded and
the new record's `differencePath` remains empty. -/
theorem c9_alpha_mask_ask_once (DecodeFile : String → Bool)
    (ctx : SkDiffContextSt) (baselinePath testPath : String) (i : Nat)
    (hi : i < ctx.fDiffers.length)
    (henable : (ctx.fDiffers.get ⟨i, hi⟩).enableResp = true)
    (hqueue : 0 ≤ (ctx.fDiffers.get ⟨i, hi⟩).queueResp)
    (hasked : i ∈ (addDiff DecodeFile ctx baselinePath testPath).asked) :
    (∀ j, i < j → j ∉ (addDiff DecodeFile ctx baselinePath testPath).asked) ∧
      ((ctx.fDiffers.get ⟨i, hi⟩).result = RESULT_CORRECT →
        (addDiff DecodeFile ctx baselinePath testPath).encoded = [] ∧
          ((addDiff DecodeFile ctx baselinePath
              testPath).ctx.fRecords.head?).map
            DiffRecord.fDifferencePath = some "") := by
  by_cases hbf : DecodeFile baselinePath = false
  · simp [addDiff, hbf] at hasked
  by_cases htf : DecodeFile testPath = false
  · simp [addDiff, hbf, htf] at hasked
  have hdecomp : ctx.fDiffers =
      ctx.fDiffers.take i ++
        (ctx.fDiffers.get ⟨i, hi⟩) :: ctx.fDiffers.drop (i + 1) := by
    conv_lhs => rw [← List.take_append_drop i ctx.fDiffers]
    rw [List.drop_eq_getElem_cons hi]
    simp [List.get_eq_getElem]
  have hlen : (ctx.fDiffers.take i).length = i := by
    rw [List.length_take]
    omega
  simp only [addDiff, hbf, htf, Bool.false_eq_true, if_false,
    ite_false] at hasked ⊢
  have hasked' := hdecomp ▸ hasked
  have hmain := runDiffers_ask_once ctx.fDifferenceDir (ctx.fDiffers.take i)
    (ctx.fDiffers.drop (i + 1)) (ctx.fDiffers.get ⟨i, hi⟩) i hlen _ rfl
    henable hqueue hasked'
  rw [← hdecomp] at hmain
  refine ⟨hmain.1, fun hres => ⟨(hmain.2 hres).1, ?_⟩⟩
  simp [(hmain.2 hres).2]

/-- A concrete context for the alpha-mask scenario: two differs both willing
to supply the alpha mask, the first accepting the pair with a
`RESULT_CORRECT` score, and a configured artifact directory. -/
def c9ctx : SkDiffContextSt :=
  ⟨[], [⟨"first", true, 0, 1, []⟩, ⟨"second", true, 3, 0, []⟩], "out"⟩

/-- Witness for `c9_alpha_mask_ask_once`: differ 0 of `c9ctx` is asked,
answers `true`, queues successfully with a `RESULT_CORRECT` score; differ 1
is never asked, nothing is encoded, and the record's difference path stays
empty. -/
theorem c9_alpha_mask_ask_once_witness :
    (∀ j, 0 < j →
        j ∉ (addDiff (fun _ => true) c9ctx "a/x.png" "b/y.png").asked) ∧
      ((c9ctx.fDiffers.get ⟨0, by decide⟩).result = RESULT_CORRECT →
        (addDiff (fun _ => true) c9ctx "a/x.png" "b/y.png").encoded = [] ∧
          ((addDiff (fun _ => true) c9ctx "a/x.png"
              "b/y.png").ctx.fRecords.head?).map
            DiffRecord.fDifferencePath = some "") :=
  c9_alpha_mask_ask_once (fun _ => true) c9ctx "a/x.png" "b/y.png" 0
    (by decide) (by decide) (by decide) (by decide)

/-! ## Report serialization (`outputRecords`, lines 243-330) -/

/-- `kMaxPOI` (lines 20-21): serialization-time cap on the number of points
of interest written per `DiffData`. -/
def kMaxPOI : Nat := 100

/-- The text chunks written by the points-of-interest loop (lines 287-303):
one chunk per emitted point (`poiIndex < count` and `poiIndex < kMaxPOI`),
with a comma exactly when another point follows under both bounds;
`writeDecAsText` is modelled by decimal `toString`. -/
def poiChunks (pois : List (Int × Int)) : List String :=
  (pois.take kMaxPOI).enum.map (fun ip =>
    "                        [" ++ toString ip.2.1 ++ "," ++
      toString ip.2.2 ++ "]" ++
      (if ip.1 + 1 < pois.length ∧ ip.1 + 1 < kMaxPOI then "," else "") ++
      "\n")

/-- One `DiffData` JSON object (lines 275-311); `scalarText` models
`SkWStream::writeScalarAsText`. -/
def diffChunk (scalarText : ℚ → String) (hasNext : Bool) (data : DiffData) :
    String :=
  "                \x7b\n" ++
    "                    \"differName\": \"" ++ data.fDiffName ++ "\",\n" ++
    "                    \"result\": " ++ scalarText data.fResult ++ ",\n" ++
    "                    \"pointsOfInterest\": [\n" ++
    String.join (poiChunks data.fPointsOfInterest) ++
    "                    ]\n" ++
    "                \x7d" ++ (if hasNext then "," else "") ++
    "                \n"

/-- The `diffs` array body (loop at lines 275-312): a comma after every
object except the last. -/
def diffChunks (scalarText : ℚ → String) : List DiffData → String
  | [] => ""
  | [d] => diffChunk scalarText false d
  | d :: d2 :: ds =>
    diffChunk scalarText true d ++ diffChunks scalarText (d2 :: ds)

/-- One record JSON object (lines 251-322); `absPath` models
`get_absolute_path` from `skpdiff_util` (not under `src/`). -/
def recordChunk (absPath : String → String) (scalarText : ℚ → String)
    (hasNext : Bool) (r : DiffRecord) : String :=
  "        \x7b\n" ++
    "            \"commonName\": \"" ++ r.fCommonName ++ "\",\n" ++
    "            \"differencePath\": \"" ++ absPath r.fDifferencePath ++
    "\",\n" ++
    "            \"baselinePath\": \"" ++ absPath r.fBaselinePath ++
    "\",\n" ++
    "            \"testPath\": \"" ++ absPath r.fTestPath ++ "\",\n" ++
    "            \"diffs\": [\n" ++
    diffChunks scalarText r.fDiffs ++
    "            ]\n" ++
    "        \x7d" ++ (if hasNext then "," else "") ++ "\n"

/-- The records array body: a comma after every record whose `fNext` is not
null, i.e. after every record but the last. -/
def recordChunks (absPath : String → String) (scalarText : ℚ → String) :
    List DiffRecord → String
  | [] => ""
  | [r] => recordChunk absPath scalarText false r
  | r :: r2 :: rs =>
    recordChunk absPath scalarText true r ++
      recordChunks absPath scalarText (r2 :: rs)

/-- `SkDiffContext::outputRecords` (lines 243-330), returning the written
text together with the context after the call: the loop only follows the
records' `fNext` links and performs no store write, so the context comes
back unchanged. -/
def outputRecords (absPath : String → String) (scalarText : ℚ → String)
    (ctx : SkDiffContextSt) (useJSONP : Bool) : String × SkDiffContextSt :=
  ((if useJSONP then "var SkPDiffRecords = \x7b\n" else "\x7b\n") ++
    "    \"records\": [\n" ++
    recordChunks absPath scalarText ctx.fRecords ++
    "    ]\n" ++
    (if useJSONP then "\x7d;\n" else "\x7d\n"),
    ctx)

/-! ## CSV serialization (`outputCsv`, lines 332-389) -/

/-- Insert a differ name into the column list if not yet present (lines
344-349: `columns.set(name, cntColumns)` on a miss). -/
def insertCol (cs : List String) (n : String) : List String :=
  if n ∈ cs then cs else cs ++ [n]

/-- Columns contributed by one record's diffs, in first-seen order. -/
def addColumns (cols : List String) (r : DiffRecord) : List String :=
  r.fDiffs.foldl (fun cs d => insertCol cs d.fDiffName) cols

/-- The columns dictionary of `outputCsv` built by the header scan over all
records (lines 340-352); a name's `SkTDict` value is its position in this
list, because names are inserted with the running `cntColumns` counter. -/
def buildColumns (records : List DiffRecord) : List String :=
  records.foldl addColumns []

/-- `SkTDict<int>::find` for the columns dictionary: the stored value of a
name, i.e. its first-seen index. -/
def dictFind : List String → String → Option Nat
  | [], _ => none
  | c :: cs, name =>
    if c = name then some 0 else (dictFind cs name).map (· + 1)

/-- The per-record `values` array of `outputCsv` (lines 355-370): all
columns start at the `-1` sentinel, then each diff writes its result at its
column's index (the `none` branch models the assertion-guarded unreachable
lookup failure and writes nothing). -/
def rowValues (cols : List String) (r : DiffRecord) : List ℚ :=
  r.fDiffs.foldl
    (fun vs d =>
      match dictFind cols d.fDiffName with
      | some j => vs.set j d.fResult
      | none => vs)
    (List.replicate cols.length (-1))

/-- The filename written for a record (lines 372-376): scan backwards from
the final character of the baseline path while the preceding character is
not a separator. -/
def csvFilename (path : String) : String :=
  match path.toList.reverse with
  | [] => ""
  | c :: rest => ⟨(c :: rest.takeWhile (fun ch => ch ≠ '/')).reverse⟩

/-- The CSV header row (lines 336-353). -/
def csvHeader (records : List DiffRecord) : String :=
  "key" ++
    String.join ((buildColumns records).map (fun c => ", " ++ c)) ++ "\n"

/-- One CSV data row (lines 359-385); `floatText` models the `"%f"`
rendering of `SkString::printf`. -/
def csvRow (floatText : ℚ → String) (cols : List String) (r : DiffRecord) :
    String :=
  csvFilename r.fBaselinePath ++
    String.join ((rowValues cols r).map (fun v => ", " ++ floatText v)) ++
    "\n"

/-- `SkDiffContext::outputCsv` (lines 332-389), returning the written text
and the context after the call; like `outputRecords` it only reads the
store. -/
def outputCsv (floatText : ℚ → String) (ctx : SkDiffContextSt) :
    String × SkDiffContextSt :=
  (csvHeader ctx.fRecords ++
    String.join (ctx.fRecords.map (fun r =>
      csvRow floatText (buildColumns ctx.fRecords) r)),
    ctx)

/-- C8: serialization does not mutate the record store: `outputRecords` and
`outputCsv` both return the context unchanged, and running `outputRecords`,
then `outputCsv`, then `outputRecords` again over the successively returned
contexts yields byte-identical JSON both times. -/
theorem c8_serialization_idempotent (absPath : String → String)
    (scalarText floatText : ℚ → String) (ctx : SkDiffContextSt)
    (useJSONP : Bool) :
    (outputRecords absPath scalarText ctx useJSONP).2 = ctx ∧
      (outputCsv floatText ctx).2 = ctx ∧
      (outputRecords absPath scalarText
          ((outputCsv floatText
            ((outputRecords absPath scalarText ctx useJSONP).2)).2)
          useJSONP).1 =
        (outputRecords absPath scalarText ctx useJSONP).1 :=
  ⟨rfl, rfl, rfl⟩

/-- 150 concrete points of interest. -/
def pois150 : List (Int × Int) :=
  (List.range 150).map (fun k => ((k : Int), (k : Int)))

set_option maxRecDepth 8000 in
/-- C6: the `kMaxPOI` cap applies at serialization time, not collection
time: in general the loop emits `min count 100` entries; a `DiffData`
collecting 150 points stores all 150, while its serialization emits exactly
100 coordinate entries and the last emitted entry carries no trailing
comma. -/
theorem c6_poi_truncation :
    (∀ pois : List (Int × Int),
        (poiChunks pois).length = min pois.length kMaxPOI) ∧
      (mkDiffData ⟨"d", false, 0, 0, pois150⟩).fPointsOfInterest.length =
        150 ∧
      (poiChunks pois150).length = 100 ∧
      (poiChunks pois150).getLast? =
        some "                        [99,99]\n" := by
  refine ⟨fun pois => ?_, ?_, ?_, ?_⟩
  · simp [poiChunks, List.enum_length, Nat.min_comm]
  · decide
  · decide
  · decide

/-! ## C10: CSV column indices stay in bounds -/

theorem mem_insertCol_of_mem (cs : List String) (n x : String)
    (h : x ∈ cs) : x ∈ insertCol cs n := by
  unfold insertCol
  split
  · exact h
  · exact List.mem_append_left _ h

theorem mem_insertCol_self (cs : List String) (n : String) :
    n ∈ insertCol cs n := by
  unfold insertCol
  split
  · assumption
  · simp

theorem mem_of_mem_insertCol (cs : List String) (n x : String)
    (h : x ∈ insertCol cs n) : x ∈ cs ∨ x = n := by
  unfold insertCol at h
  split at h
  · exact Or.inl h
  · simpa using h

theorem insertCol_nodup (cs : List String) (n : String) (h : cs.Nodup) :
    (insertCol cs n).Nodup := by
  unfold insertCol
  split
  · exact h
  · next hn => simp [List.nodup_append, h, hn]

theorem mem_foldl_insertCol_of_mem (ns : List String) (cs : List String)
    (x : String) (h : x ∈ cs) : x ∈ ns.foldl insertCol cs := by
  induction ns generalizing cs with
  | nil => exact h
  | cons n ns ih => exact ih _ (mem_insertCol_of_mem cs n x h)

theorem mem_foldl_insertCol_self (ns : List String) (cs : List String)
    (x : String) (h : x ∈ ns) : x ∈ ns.foldl insertCol cs := by
  induction ns generalizing cs with
  | nil => cases h
  | cons n ns ih =>
    rcases List.mem_cons.mp h with h1 | h1
    · subst h1
      exact mem_foldl_insertCol_of_mem ns _ x (mem_insertCol_self cs x)
    · exact ih _ h1

theorem mem_of_mem_foldl_insertCol (ns : List String) (cs : List String)
    (x : String) (h : x ∈ ns.foldl insertCol cs) : x ∈ cs ∨ x ∈ ns := by
  induction ns generalizing cs with
  | nil => exact Or.inl h
  | cons n ns ih =>
    rcases ih _ h with h' | h'
    · rcases mem_of_mem_insertCol cs n x h' with h'' | h''
      · exact Or.inl h''
      · exact Or.inr (by simp [h''])
    · exact Or.inr (List.mem_cons_of_mem n h')

theorem foldl_insertCol_nodup (ns : List String) (cs : List String)
    (h : cs.Nodup) : (ns.foldl insertCol cs).Nodup := by
  induction ns generalizing cs with
  | nil => exact h
  | cons n ns ih => exact ih _ (insertCol_nodup cs n h)

/-- All differ names mentioned by the records, in store order. -/
def allDiffNames (records : List DiffRecord) : List String :=
  (records.map (fun r => r.fDiffs.map DiffData.fDiffName)).flatten

theorem buildColumns_eq_foldl (records : List DiffRecord) :
    buildColumns records = (allDiffNames records).foldl insertCol [] := by
  suffices hgen : ∀ cs : List String,
      records.foldl addColumns cs = (allDiffNames records).foldl insertCol cs by
    exact hgen []
  induction records with
  | nil => intro cs; rfl
  | cons r rs ih =>
    intro cs
    show rs.foldl addColumns (addColumns cs r) = _
    rw [ih]
    unfold allDiffNames
    rw [List.map_cons, List.flatten_cons, List.foldl_append]
    unfold addColumns
    rw [List.foldl_map]

theorem dictFind_of_mem (cols : List String) (name : String)
    (h : name ∈ cols) :
    ∃ j, dictFind cols name = some j ∧ j < cols.length := by
  induction cols with
  | nil => cases h
  | cons c cs ih =>
    by_cases hc : c = name
    · exact ⟨0, by simp [dictFind, hc], by simp⟩
    · have h' : name ∈ cs := by
        rcases List.mem_cons.mp h with h1 | h1
        · exact absurd h1.symm hc
        · exact h1
      obtain ⟨j, hj1, hj2⟩ := ih h'
      refine ⟨j + 1, by simp [dictFind, hc, hj1], ?_⟩
      simp only [List.length_cons]
      omega

/-- C10: `outputCsv` accumulates row values in a local `double values[100]`
indexed by column number; provided the records mention fewer than 100
distinct differ names, the assertion `cntColumns < 100` holds, and for
every diff of every record the column lookup succeeds with an index in
`[0, cntColumns)` — the lookup-failure branch is unreachable. -/
theorem c10_outputCsv_bounds (records : List DiffRecord)
    (h : (allDiffNames records).dedup.length < 100) :
    (buildColumns records).length < 100 ∧
      ∀ r ∈ records, ∀ d ∈ r.fDiffs, ∃ j,
        dictFind (buildColumns records) d.fDiffName = some j ∧
          j < (buildColumns records).length := by
  have hnodup : (buildColumns records).Nodup := by
    rw [buildColumns_eq_foldl]
    exact foldl_insertCol_nodup _ [] List.nodup_nil
  have hsub : ∀ x ∈ buildColumns records, x ∈ allDiffNames records := by
    intro x hx
    rw [buildColumns_eq_foldl] at hx
    rcases mem_of_mem_foldl_insertCol _ [] x hx with h' | h'
    · cases h'
    · exact h'
  constructor
  · have h1 : (buildColumns records).toFinset.card =
        (buildColumns records).length := List.toFinset_card_of_nodup hnodup
    have h2 : (buildColumns records).toFinset ⊆
        (allDiffNames records).toFinset := by
      intro x hx
      rw [List.mem_toFinset] at hx ⊢
      exact hsub x hx
    have h3 := Finset.card_le_card h2
    rw [h1, List.card_toFinset] at h3
    omega
  · intro r hr d hd
    apply dictFind_of_mem
    rw [buildColumns_eq_foldl]
    apply mem_foldl_insertCol_self
    unfold allDiffNames
    simp only [List.mem_flatten, List.mem_map]
    exact ⟨r.fDiffs.map DiffData.fDiffName, ⟨r, hr, rfl⟩,
      List.mem_map_of_mem _ hd⟩

/-- Two concrete records mentioning two distinct differ names. -/
def c10records : List DiffRecord :=
  [⟨"b/x.png", "t/x.png", "x.png", "", [⟨"d1", 1, []⟩, ⟨"d2", 0, []⟩]⟩,
   ⟨"b/y.png", "t/y.png", "y.png", "", [⟨"d2", 1, []⟩]⟩]

/-- Witness for `c10_outputCsv_bounds` on `c10records`. -/
theorem c10_outputCsv_bounds_witness :
    (buildColumns c10records).length < 100 ∧
      ∀ r ∈ c10records, ∀ d ∈ r.fDiffs, ∃ j,
        dictFind (buildColumns c10records) d.fDiffName = some j ∧
          j < (buildColumns c10records).length :=
  c10_outputCsv_bounds c10records (by decide)

/-! ## C7: pattern mode aborts on a count mismatch -/

/-- `SkDiffContext::diffPatterns` (lines 210-241): expand both glob
patterns (`glob_files` from `skpdiff_util`, not under `src/`, modelled as a
function returning the sorted file list or failure), return early on an
expansion failure or a count mismatch, otherwise schedule one comparison
task per positional pair and drain the pool (`threadPool.wait()`), whose
aggregate effect on the store is the fold of `addDiff` over the pairs.
Returns the updated context and the list of scheduled pairs. -/
def diffPatterns (DecodeFile : String → Bool)
    (glob_files : String → Option (List String)) (ctx : SkDiffContextSt)
    (baselinePattern testPattern : String) :
    SkDiffContextSt × List (String × String) :=
  match glob_files baselinePattern with
  | none => (ctx, [])
  | some baselineEntries =>
    match glob_files testPattern with
    | none => (ctx, [])
    | some testEntries =>
      if baselineEntries.length ≠ testEntries.length then (ctx, [])
      else
        let pairs := baselineEntries.zip testEntries
        (pairs.foldl (fun c p => (addDiff DecodeFile c p.1 p.2).ctx) ctx,
          pairs)

/-- C7: when the two glob patterns expand to lists of different lengths,
`diffPatterns` aborts the whole call: no comparison pair is scheduled and
the context (in particular the record store) is unchanged. -/
theorem c7_pattern_mismatch_aborts (DecodeFile : String → Bool)
    (glob_files : String → Option (List String)) (ctx : SkDiffContextSt)
    (baselinePattern testPattern : String) (be te : List String)
    (hb : glob_files baselinePattern = some be)
    (ht : glob_files testPattern = some te)
    (hne : be.length ≠ te.length) :
    diffPatterns DecodeFile glob_files ctx baselinePattern testPattern =
      (ctx, []) := by
  simp [diffPatterns, hb, ht, hne]

/-- Witness for `c7_pattern_mismatch_aborts`: a baseline glob matching 3
files against a test glob matching 2 files. -/
theorem c7_pattern_mismatch_aborts_witness :
    diffPatterns (fun _ => true)
        (fun p => if p = "base/x*" then some ["a", "b", "c"]
          else some ["x", "y"])
        exCtx "base/x*" "test/x*" = (exCtx, []) :=
  c7_pattern_mismatch_aborts (fun _ => true)
    (fun p => if p = "base/x*" then some ["a", "b", "c"]
      else some ["x", "y"])
    exCtx "base/x*" "test/x*" ["a", "b", "c"] ["x", "y"]
    (by decide) (by decide) (by decide)

/-! ## C3: head-linking of records is unguarded under the worker pool -/

/-- One of the two memory accesses `addDiff` performs on the shared store
head when linking a new record (lines 98-99): reading `fRecords` into the
new record's `fNext`, then writing the new record to `fRecords`.  The
source contains no lock around these lines, so when `diffDirectories` runs
`addDiff` from its worker pool (lines 185-206) the accesses of different
tasks may interleave freely. -/
inductive LinkStep where
  | readHead
  | writeHead
deriving DecidableEq, Repr

/-- Shared-memory state of the head-link race: the chain of records (named
by task id) reachable from `fRecords`, and each task's saved `fNext`
pointer, i.e. the chain it observed when it read the head. -/
structure RaceState where
  head : List Nat
  saved : Nat → Option (List Nat)

/-- Execute one access of one task: `readHead` is line 98
(`newRecord->fNext = fRecords`), `writeHead` is line 99
(`fRecords = newRecord`), which makes the reachable chain the task's
record followed by whatever it saved. -/
def raceStep (s : RaceState) (step : Nat × LinkStep) : RaceState :=
  match step.2 with
  | .readHead =>
    { s with saved := fun t => if t = step.1 then some s.head else s.saved t }
  | .writeHead =>
    match s.saved step.1 with
    | some l => { s with head := step.1 :: l }
    | none => s

/-- Run a schedule (an interleaving of the tasks' two accesses each) from
an empty store. -/
def raceRun (steps : List (Nat × LinkStep)) : RaceState :=
  steps.foldl raceStep ⟨[], fun _ => none⟩

/-- The fully serialized schedule for `n` tasks — each task's read
immediately followed by its write: the behaviour the claimed critical
section would enforce. -/
def seqSchedule (n : Nat) : List (Nat × LinkStep) :=
  ((List.range n).map (fun i => [(i, LinkStep.readHead),
    (i, LinkStep.writeHead)])).flatten

theorem seqSchedule_succ (n : Nat) :
    seqSchedule (n + 1) =
      seqSchedule n ++ [(n, LinkStep.readHead), (n, LinkStep.writeHead)] := by
  unfold seqSchedule
  rw [List.range_succ, List.map_append, List.flatten_append]
  simp

theorem raceRun_seq_length (n : Nat) :
    (raceRun (seqSchedule n)).head.length = n := by
  induction n with
  | zero => rfl
  | succ n ih =>
    rw [seqSchedule_succ]
    unfold raceRun at ih ⊢
    rw [List.foldl_append]
    simp only [List.foldl_cons, List.foldl_nil]
    simp [raceStep, ih]

/-- C3 (the code lacks the claimed critical section): nothing in
`SkDiffContext::addDiff` guards the head-link of lines 98-99, so the
lost-update interleaving of two pool tasks — both read `fRecords`, then
both write it — leaves exactly one record reachable in the store where the
claim promises exactly N = 2; a serialized schedule does yield 2. -/
theorem c3_lost_update :
    (raceRun [(0, LinkStep.readHead), (1, LinkStep.readHead),
        (0, LinkStep.writeHead), (1, LinkStep.writeHead)]).head = [1] ∧
      (raceRun [(0, LinkStep.readHead), (1, LinkStep.readHead),
          (0, LinkStep.writeHead), (1, LinkStep.writeHead)]).head.length =
        1 ∧
      (raceRun (seqSchedule 2)).head.length = 2 ∧ (1 : Nat) ≠ 2 :=
  ⟨rfl, rfl, raceRun_seq_length 2, by decide⟩
